import Mathlib

/-!
Verification of the voice_assist session core against its design spec.

Shallow embedding of the Python sources:
  * `src/conversation/manager.py`  (ConversationManager)
  * `src/commands/router.py`       (CommandRouter)
  * `src/commands/local_handlers.py` (TimeHandler, DateHandler)
  * `src/speech/interruption.py`   (InterruptibleTTS)
  * `src/resources/manager.py`     (ResourceManager)

Python strings become `String`, lists become `List`, dicts become
association lists with first-match lookup, Python `int` arithmetic is
`Int`/`Nat`, and Python float arithmetic is modelled over `ℚ` (every
constant involved, 4, 0.75 and 2, is exactly representable in binary
floating point, and at each point where a float is truncated to an int
the exact value crosses an integer only when the float computation is
exact, so the rational model agrees with the float one; see the comment
at `estimate_tokens`).
-/

namespace VoiceAssist

/-- Splitter worker: cut the character list at every character satisfying
`p`, keeping the (possibly empty) pieces between consecutive separators,
exactly as Python `re.split` with a single-character class does. -/
def splitCharsGo (p : Char → Bool) : List Char → List Char → List (List Char)
  | [], cur => [cur.reverse]
  | c :: rest, cur =>
    if p c then cur.reverse :: splitCharsGo p rest []
    else splitCharsGo p rest (c :: cur)

/-- Split a string at every character satisfying `p`, keeping empty pieces
(Python `re.split(r'[..]', text)` with a one-character-at-a-time class). -/
def pySplit (text : String) (p : Char → Bool) : List String :=
  (splitCharsGo p text.data []).map String.mk

/-- Python `text.split()`: the list of maximal nonwhitespace runs.
Cutting at every whitespace character produces empty pieces between
adjacent separators; filtering the empties leaves exactly the runs. -/
def pyWords (text : String) : List String :=
  (pySplit text Char.isWhitespace).filter (fun s => s ≠ "")

/-- Python `text.strip()`: remove leading and trailing whitespace. -/
def pyStrip (text : String) : String :=
  String.mk (((text.data.dropWhile Char.isWhitespace).reverse.dropWhile
    Char.isWhitespace).reverse)

/-- Python `text.lower()`. -/
def pyLower (text : String) : String :=
  String.mk (text.data.map Char.toLower)

/-- Python `c in text` for a single character `c`. -/
def pyContainsChar (text : String) (c : Char) : Bool :=
  text.data.any (fun a => a = c)

/-- Contiguous-sublist check, worker for Python's substring test `in`. -/
def subList (pat : List Char) : List Char → Bool
  | [] => pat.isEmpty
  | c :: rest => List.isPrefixOf pat (c :: rest) || subList pat rest

/-- Python `pattern in text` for strings: contiguous substring test. -/
def pyContainsSub (text pattern : String) : Bool :=
  subList pattern.data text.data

/-- Python `l[-k:]` for a nonnegative `k`: the last `k` elements, except
that for `k = 0` the slice degenerates to `l[0:]`, the whole list. -/
def pySliceLast (k : Nat) (l : List α) : List α :=
  if k = 0 then l else l.drop (l.length - k)

/-- First-match association-list lookup, the model of a Python dict read. -/
def dictGet (k : String) : List (String × α) → Option α
  | [] => none
  | (k', v) :: rest => if k' = k then some v else dictGet k rest

/-- Python dict write `d[k] = v`: overwrite the binding if present,
append it otherwise. -/
def dictSet (k : String) (v : α) : List (String × α) → List (String × α)
  | [] => [(k, v)]
  | (k', v') :: rest => if k' = k then (k, v) :: rest else (k', v') :: dictSet k v rest

namespace Conversation

/-- Embeds `ConversationMessage` from `src/conversation/interfaces.py`
(the unused optional `metadata` field is omitted). -/
structure ConversationMessage where
  role : String
  content : String
  timestamp : Nat := 0
deriving Repr, DecidableEq, Inhabited

/-- Embeds `ConversationContext` from `src/conversation/interfaces.py`; the
`messages` dicts `{"role": r, "content": c}` become pairs `(r, c)`. -/
structure ConversationContext where
  messages : List (String × String)
  token_count : Int
  conversation_id : Option String := none
deriving Repr, DecidableEq

/-- The mutable state of `ConversationManager` from
`src/conversation/manager.py`. -/
structure ConversationManager where
  history_limit : Nat := 20
  conversations : List (String × List ConversationMessage) := []
  current_conversation_id : Option String := none
  conversational_mode : Bool := false
  last_interaction_time : Nat := 0
deriving Repr, DecidableEq

/-- Embeds `ConversationManager._estimate_tokens`:
`int((len(text)/4 + len(text.split())/0.75) / 2)` over Python floats.
Both operands and the result of each division are nonnegative, so the
final `int(...)` truncation is a floor.  The float value only disagrees
with the exact rational below when the exact average `(3L+16W)/24` sits
within one float ulp of an integer, which for a denominator-24 rational
forces `W ≡ 0 (mod 3)` — and then `W/0.75 = 4W/3` and every later step
are exact in binary floating point, so floors agree everywhere. -/
def estimate_tokens (text : String) : Int :=
  let char_estimate : ℚ := (text.length : ℚ) / 4
  let word_estimate : ℚ := ((pyWords text).length : ℚ) / (3 / 4)
  Int.floor ((char_estimate + word_estimate) / 2)

/-- The token estimate as §4.1 of the spec words it: the character and
word estimates are each integer-floored first, and their average is then
taken (itself floored to yield an integer estimate). -/
def estimate_tokens_specFormula (text : String) : Int :=
  let char_estimate : Int := Int.floor ((text.length : ℚ) / 4)
  let word_estimate : Int := Int.floor (((pyWords text).length : ℚ) / (3 / 4))
  Int.floor (((char_estimate : ℚ) + (word_estimate : ℚ)) / 2)

/-- Embeds `ConversationManager.start_conversation`, with the `uuid.uuid4()` and
`time.time()` effects passed in as the `fresh_id` and `now` arguments. -/
def start_conversation (st : ConversationManager) (fresh_id : String) (now : Nat) :
    ConversationManager × String :=
  ({ st with
      conversations := dictSet fresh_id [] st.conversations
      current_conversation_id := some fresh_id
      last_interaction_time := now }, fresh_id)

/-- Embeds `ConversationManager.add_message`, with the implicit `uuid.uuid4()`
and `time.time()` effects passed in as `fresh_id` and `now`. -/
def add_message (st : ConversationManager) (role content : String)
    (conversation_id? : Option String) (fresh_id : String) (now : Nat) :
    ConversationManager :=
  let cid? := match conversation_id? with
    | none => st.current_conversation_id
    | some c => some c
  let stCid : ConversationManager × String := match cid? with
    | none => start_conversation st fresh_id now
    | some c => (st, c)
  let st := stCid.1
  let cid := stCid.2
  let st := match dictGet cid st.conversations with
    | none => { st with conversations := dictSet cid [] st.conversations }
    | some _ => st
  let msgs := (dictGet cid st.conversations).getD []
  let msgs := msgs ++ [{ role := role, content := content, timestamp := now }]
  let msgs := if msgs.length > st.history_limit * 2 then
      pySliceLast (st.history_limit * 2) msgs
    else msgs
  { st with
      conversations := dictSet cid msgs st.conversations
      last_interaction_time := now }

/-- The `for message in reversed(conversation_messages)` loop of
`ConversationManager.get_context`: `rev` is the still-unprocessed part of
the reversed message list, `acc` the `messages` list built by
`messages.insert(0, ...)`, `cur` the running `current_tokens`. -/
def contextLoop (bound : Int) :
    List ConversationMessage → List (String × String) → Int →
    List (String × String) × Int
  | [], acc, cur => (acc, cur)
  | m :: rest, acc, cur =>
    let t := estimate_tokens m.content
    if cur + t > bound then (acc, cur)
    else contextLoop bound rest ((m.role, m.content) :: acc) (cur + t)

/-- Embeds `ConversationManager.get_context`. -/
def get_context (st : ConversationManager) (max_tokens : Int)
    (conversation_id? : Option String) : ConversationContext :=
  let cid? := match conversation_id? with
    | none => st.current_conversation_id
    | some c => some c
  match cid? with
  | none => { messages := [], token_count := 0, conversation_id := none }
  | some cid =>
    match dictGet cid st.conversations with
    | none => { messages := [], token_count := 0, conversation_id := some cid }
    | some conversation_messages =>
      let r := contextLoop (max_tokens - 2000) conversation_messages.reverse [] 0
      { messages := r.1, token_count := r.2, conversation_id := some cid }

/-- Embeds `ConversationManager.update_history_limit`. -/
def update_history_limit (st : ConversationManager) (new_limit : Nat) :
    ConversationManager :=
  { st with
      history_limit := new_limit
      conversations := st.conversations.map (fun p =>
        if p.2.length > new_limit * 2 then
          (p.1, pySliceLast (new_limit * 2) p.2)
        else p) }

/-- Total estimated token cost of a message list. -/
def tokenSum (l : List ConversationMessage) : Int :=
  (l.map (fun m => estimate_tokens m.content)).sum

/-- Last `k` elements of a list (the trimmed window kept by the manager). -/
def lastN (k : Nat) (l : List α) : List α :=
  l.drop (l.length - k)

/-- An append item: role, content and the `time.time()` stamp of the call. -/
def toMsg (it : String × String × Nat) : ConversationMessage :=
  { role := it.1, content := it.2.1, timestamp := it.2.2 }

/-- A sequence of `add_message(role, content, conversation_id=cid)` calls,
folded over the manager state (`fresh` feeds the unused `uuid4` effect). -/
def appendAll (cid fresh : String) (items : List (String × String × Nat))
    (st : ConversationManager) : ConversationManager :=
  items.foldl (fun st it => add_message st it.1 it.2.1 (some cid) fresh it.2.2) st

/-- A manager holding one open, empty conversation `cid` with history
limit `n`, the state reached by `ConversationManager(history_limit=n)`
followed by `start_conversation()`. -/
def initMgr (n : Nat) (cid : String) : ConversationManager :=
  { history_limit := n
    conversations := [(cid, [])]
    current_conversation_id := some cid }

/-- A concrete message, used for instantiating the theorems below. -/
def msgHello : ConversationMessage :=
  { role := "user", content := "Hello", timestamp := 0 }

/-- A concrete manager state holding one conversation `"c"` with the
single message `msgHello`, used for instantiating the theorems below. -/
def mgrEx : ConversationManager :=
  { history_limit := 20
    conversations := [("c", [msgHello])]
    current_conversation_id := some "c" }

/-- A manager state with no current conversation, used for instantiating
the theorems below. -/
def mgrEmpty : ConversationManager :=
  { history_limit := 20
    conversations := []
    current_conversation_id := none }

end Conversation

namespace Commands

/-- Embeds `CommandResult` from `src/commands/interfaces.py`; the metadata dict
(string keys, string payloads in every use the claims touch) becomes an
association list. -/
structure CommandResult where
  response : String
  command_type : String
  success : Bool := true
  metadata : List (String × String) := []
deriving Repr, DecidableEq

/-- The capability a registered handler offers
(`CommandHandlerInterface`): `can_handle`, `handle`, `get_command_type`. -/
structure Handler where
  can_handle : String → Bool
  handle : String → CommandResult
  get_command_type : String

/-- Embeds `CommandRouter.route_command`; the router's `self.handlers` list,
built by `register_handler` appends, is the `handlers` argument, in
registration order. -/
def route_command (handlers : List Handler) (text : String) :
    String × CommandResult :=
  match handlers with
  | [] =>
    ("ai", { response := "", command_type := "ai_query",
             metadata := [("original_text", text)] })
  | handler :: rest =>
    if handler.can_handle text then ("local", handler.handle text)
    else route_command rest text

/-- The `question_words` list of `CommandRouter.contains_question`. -/
def question_words : List String :=
  ["what", "where", "when", "why", "how", "who", "which", "whose",
   "can", "could", "would", "should", "will", "do", "does", "did",
   "is", "are", "was", "were", "am"]

/-- Embeds `CommandRouter.contains_question`. `re.split(r'[.!]', ...)` cuts at
every single `.` or `!`, keeping empty pieces. -/
def contains_question (text : String) : Bool :=
  if pyContainsChar text '?' then true
  else
    let sentences := pySplit (pyLower text) (fun c => c = '.' || c = '!')
    sentences.any (fun sentence =>
      let sentence := pyStrip sentence
      if sentence = "" then false
      else
        match pyWords sentence with
        | [] => false
        | w :: _ => question_words.contains w)

/-- States the `contains_question` test as §4.2 of the spec words it: a `?` anywhere, or
some sentence (split on `.`/`!`) that is nonempty after trimming and whose
first word is one of the interrogative/auxiliary words. -/
def containsQuestionSpec (text : String) : Prop :=
  pyContainsChar text '?' = true ∨
  ∃ s ∈ pySplit (pyLower text) (fun c => c = '.' || c = '!'),
    pyStrip s ≠ "" ∧
    ∃ w rest, pyWords (pyStrip s) = w :: rest ∧ w ∈ question_words

/-- Embeds `TimeHandler.can_handle` from `src/commands/local_handlers.py`. -/
def timeHandler_can_handle (text : String) : Bool :=
  let text_lower := pyLower text
  (["time", "clock", "what time"] : List String).any
    (fun keyword => pyContainsSub text_lower keyword)

/-- Embeds `TimeHandler.handle`, with the `datetime.now().strftime(..)` effect
passed in as the preformatted `now` string. -/
def timeHandler_handle (now : String) (_text : String) : CommandResult :=
  { response := "The time is " ++ now, command_type := "time",
    metadata := [("timestamp", now)] }

/-- Packages `TimeHandler` as a registered handler value. -/
def TimeHandler (now : String) : Handler :=
  { can_handle := timeHandler_can_handle
    handle := timeHandler_handle now
    get_command_type := "time" }

/-- Embeds `DateHandler.can_handle` from `src/commands/local_handlers.py`. -/
def dateHandler_can_handle (text : String) : Bool :=
  let text_lower := pyLower text
  (["date", "today", "what day"] : List String).any
    (fun keyword => pyContainsSub text_lower keyword)

/-- Embeds `DateHandler.handle`, with the formatted current date passed in. -/
def dateHandler_handle (today : String) (_text : String) : CommandResult :=
  { response := "Today is " ++ today, command_type := "date",
    metadata := [("date", today)] }

/-- Packages `DateHandler` as a registered handler value. -/
def DateHandler (today : String) : Handler :=
  { can_handle := dateHandler_can_handle
    handle := dateHandler_handle today
    get_command_type := "date" }

end Commands

namespace Speech

/-- The sentence pieces of `InterruptibleTTS._split_into_sentences`:
`re.split(r'[.!?]+', text)`, then strip each piece and drop the empties.
(`[.!?]+` cuts at maximal runs of terminators; cutting at every single
terminator instead only adds empty pieces, which the same filter drops.) -/
def sentence_pieces (text : String) : List String :=
  ((pySplit text (fun c => c = '.' || c = '!' || c = '?')).map pyStrip).filter
    (fun s => s ≠ "")

/-- The rejoin loop of `_split_into_sentences`, from its second outer
iteration on (once `cleaned_sentences` is nonempty): while the current
sentence has fewer than 4 words and pieces remain, absorb the next piece
(joined by `". "`); then emit and continue. -/
def mergeRest : String → List String → List String
  | s, [] => [s]
  | s, t :: rest =>
    if (pyWords s).length < 4 then mergeRest (s ++ ". " ++ t) rest
    else s :: mergeRest t rest

/-- Embeds `InterruptibleTTS._split_into_sentences`.  The first outer iteration
runs with `cleaned_sentences` still empty, so its rejoin condition
`len(cleaned_sentences) > 0` is false and the first piece is emitted
as-is; the remaining pieces go through the rejoin loop. -/
def split_into_sentences (text : String) : List String :=
  let sentences := sentence_pieces text
  match sentences with
  | [] => [text]
  | s :: rest =>
    let cleaned_sentences := s :: (match rest with
      | [] => []
      | t :: rest' => mergeRest t rest')
    if cleaned_sentences = [] then [text] else cleaned_sentences

/-- Observable outcome of one `speak_with_interruption` call: the return
value, whether the background listener thread was started, and the chunks
actually handed to `base_tts.speak`. -/
structure SpeakResult where
  interrupted : Bool
  listener_started : Bool
  chunks_spoken : List String
deriving Repr, DecidableEq

/-- The chunk loop of `InterruptibleTTS.speak_with_interruption`.  The
concurrent listener is abstracted into two oracles fixing the thread
interleaving: `event_set i` is what `stop_speaking.is_set()` reads at the
top of iteration `i`, and `queue_nonempty i` is what the
`interruption_queue` poll after chunk `i` finds. -/
def speakLoop (event_set queue_nonempty : Nat → Bool) :
    List String → Nat → List String → Bool × List String
  | [], _, spoken => (false, spoken)
  | s :: rest, i, spoken =>
    if event_set i then (true, spoken)
    else
      let spoken := spoken ++ [pyStrip s]
      if queue_nonempty i then (true, spoken)
      else speakLoop event_set queue_nonempty rest (i + 1) spoken

/-- Embeds `InterruptibleTTS.speak_with_interruption`, with the listener thread
abstracted into the two poll oracles (see `speakLoop`). -/
def speak_with_interruption (text : String)
    (event_set queue_nonempty : Nat → Bool) : SpeakResult :=
  if text.length < 100 then
    { interrupted := false, listener_started := false, chunks_spoken := [text] }
  else
    let sentences := split_into_sentences text
    let r := speakLoop event_set queue_nonempty sentences 0 []
    { interrupted := r.1, listener_started := true, chunks_spoken := r.2 }

end Speech

namespace Resources

/-- Embeds `ResourceProfile` from `src/resources/interfaces.py`. -/
structure ResourceProfile where
  name : String
  description : String
  requirements : String
  context_tokens : Nat
  history_limit : Nat
  response_tokens : Nat
  recording_conversational : Nat
  recording_command : Nat
deriving Repr, DecidableEq

/-- Embeds `ResourceManager.PROFILES`. -/
def PROFILES : List (String × ResourceProfile) :=
  [("minimal",
    { name := "Minimal"
      description := "Low resource usage for gaming or older systems"
      requirements := "4-8GB VRAM"
      context_tokens := 8000
      history_limit := 10
      response_tokens := 500
      recording_conversational := 120
      recording_command := 30 }),
   ("standard",
    { name := "Standard"
      description := "Balanced performance for most users"
      requirements := "8-16GB VRAM"
      context_tokens := 16000
      history_limit := 20
      response_tokens := 1000
      recording_conversational := 300
      recording_command := 60 }),
   ("performance",
    { name := "Performance"
      description := "Maximum capabilities for high-end systems"
      requirements := "16+ GB VRAM"
      context_tokens := 32000
      history_limit := 50
      response_tokens := 2000
      recording_conversational := 600
      recording_command := 120 })]

/-- Embeds `ResourceManager.ALIASES`. -/
def ALIASES : List (String × String) :=
  [("gaming", "minimal"), ("game", "minimal"), ("low", "minimal"),
   ("normal", "standard"), ("balanced", "standard"), ("default", "standard"),
   ("fast", "performance"), ("high", "performance"), ("max", "performance"),
   ("maximum", "performance")]

/-- The mutable state of `ResourceManager` from
`src/resources/manager.py`. -/
structure ResourceManager where
  current_profile_name : Option String := none
  available_memory : Nat := 0
deriving Repr, DecidableEq

/-- A concrete resource-manager state, used for instantiating the
theorems below. -/
def rmEx : ResourceManager :=
  { current_profile_name := some "standard", available_memory := 0 }

/-- Embeds `ResourceManager.switch_profile`: the pair is (returned bool,
state after the call). -/
def switch_profile (st : ResourceManager) (profile_name : String) :
    Bool × ResourceManager :=
  let profile_name := pyLower profile_name
  let profile_name := match dictGet profile_name ALIASES with
    | some target => target
    | none => profile_name
  if (dictGet profile_name PROFILES).isSome then
    (true, { st with current_profile_name := some profile_name })
  else
    (false, st)

end Resources

end VoiceAssist

namespace VoiceAssist

namespace Conversation

/-- Closed form of the token estimate: the float expression
`int((len/4 + words/0.75)/2)` evaluates to `⌊(3·len + 16·words)/24⌋`. -/
theorem estimate_tokens_eq (text : String) :
    estimate_tokens text =
      (((3 * text.length + 16 * (pyWords text).length) / 24 : Nat) : Int) := by
  simp only [estimate_tokens]
  have h : ((text.length : ℚ) / 4 + ((pyWords text).length : ℚ) / (3 / 4)) / 2 =
      ((3 * text.length + 16 * (pyWords text).length : Nat) : ℚ) / (24 : Nat) := by
    push_cast
    ring
  rw [h, Rat.floor_natCast_div_natCast]
  omega

/-- C3 counterexample: on the text `"abc"` (3 characters, 1 word) the code
computes `int((0.75 + 1.333..)/2) = 1`, while flooring the two estimates
before averaging gives `(0 + 1)/2`, which is `0` as an integer average and
`1/2` as an exact average — neither equals the code's value. -/
theorem C3_counterexample :
    estimate_tokens "abc" = 1 ∧
    estimate_tokens_specFormula "abc" = 0 ∧
    ((estimate_tokens "abc" : ℚ) ≠
      ((Int.floor (("abc".length : ℚ) / 4) : ℚ) +
        (Int.floor (((pyWords "abc").length : ℚ) / (3 / 4)) : ℚ)) / 2) := by
  have h1 : estimate_tokens "abc" = 1 := by rw [estimate_tokens_eq]; decide
  have hl : "abc".length = 3 := by decide
  have hw : (pyWords "abc").length = 1 := by decide
  have f1 : Int.floor (((3 : Nat) : ℚ) / 4) = 0 := by rw [Int.floor_eq_iff]; norm_num
  have f2 : Int.floor (((1 : Nat) : ℚ) / (3 / 4)) = 1 := by rw [Int.floor_eq_iff]; norm_num
  refine ⟨h1, ?_, ?_⟩
  · simp only [estimate_tokens_specFormula]
    rw [hl, hw, f1, f2]
    rw [Int.floor_eq_iff]
    norm_num
  · rw [h1, hl, hw, f1, f2]
    norm_num

/-- C3 (amended): the estimate used by context selection is the float
average of the raw character estimate `len/4` and word estimate
`words/0.75`, floored once after averaging — `int((len/4 + words/0.75)/2)`,
equivalently `⌊(3·len + 16·words)/24⌋` — not the average of the two
individually floored estimates. -/
theorem C3_estimate_tokens_amended (text : String) :
    estimate_tokens text =
      (((3 * text.length + 16 * (pyWords text).length) / 24 : Nat) : Int) :=
  estimate_tokens_eq text

theorem tokenSum_nil : tokenSum [] = 0 := by
  simp [tokenSum]

theorem tokenSum_cons (m : ConversationMessage) (l : List ConversationMessage) :
    tokenSum (m :: l) = estimate_tokens m.content + tokenSum l := by
  simp [tokenSum]

theorem tokenSum_reverse (l : List ConversationMessage) :
    tokenSum l.reverse = tokenSum l := by
  simp [tokenSum, List.map_reverse, List.sum_reverse]

/-- Full characterisation of the `for message in reversed(...)` loop of
`get_context`: the reversed list splits as the consumed part `p` and the
untouched part `q`; the loop returns `p` (re-reversed onto `acc`) and the
accumulated cost; the cost stays within `bound` whenever it started there;
and if the loop stopped early, the very next message would overshoot. -/
theorem contextLoop_spec (bound : Int) (rev : List ConversationMessage) :
    ∀ (acc : List (String × String)) (cur : Int),
    ∃ p q, rev = p ++ q ∧
      contextLoop bound rev acc cur =
        ((p.map (fun m => (m.role, m.content))).reverse ++ acc, cur + tokenSum p) ∧
      (cur ≤ bound → cur + tokenSum p ≤ bound) ∧
      (∀ m q', q = m :: q' →
        bound < cur + tokenSum p + estimate_tokens m.content) := by
  induction rev with
  | nil =>
    intro acc cur
    refine ⟨[], [], by simp, by simp [contextLoop, tokenSum], ?_, by simp⟩
    intro hc
    simpa [tokenSum] using hc
  | cons m rest ih =>
    intro acc cur
    by_cases h : cur + estimate_tokens m.content > bound
    · refine ⟨[], m :: rest, by simp, ?_, ?_, ?_⟩
      · simp [contextLoop, h, tokenSum]
      · intro hc
        simpa [tokenSum] using hc
      · intro m' q' heq
        cases heq
        simpa [tokenSum] using h
    · obtain ⟨p, q, hsplit, heq, hb, ht⟩ :=
        ih ((m.role, m.content) :: acc) (cur + estimate_tokens m.content)
      refine ⟨m :: p, q, by simp [hsplit], ?_, ?_, ?_⟩
      · rw [show contextLoop bound (m :: rest) acc cur =
            contextLoop bound rest ((m.role, m.content) :: acc)
              (cur + estimate_tokens m.content) from by simp [contextLoop, h]]
        rw [heq]
        simp [tokenSum_cons, add_assoc]
      · intro hc
        have hle : cur + estimate_tokens m.content ≤ bound := by omega
        have := hb hle
        rw [tokenSum_cons]
        omega
      · intro m' q' heq'
        have := ht m' q' heq'
        rw [tokenSum_cons]
        omega

theorem getD_append_cons (l1 : List α) (a : α) (l2 : List α) (d : α) :
    (l1 ++ a :: l2).getD l1.length d = a := by
  induction l1 with
  | nil => simp
  | cons x xs ih => simpa using ih

/-- C1 (amended, requiring `max_tokens ≥ 2000`): `get_context` selects a
suffix of the conversation — the messages from index `k` on, returned in
chronological order with `token_count` their summed estimate; the sum
stays within `max_tokens − 2000`; and when anything was left out (`k > 0`)
the chronologically previous message `msgs[k−1]` would overshoot the
bound.  (For `max_tokens < 2000` the bound clause fails: see the
counterexample.) -/
theorem C1_get_context_window (st : ConversationManager) (max_tokens : Int)
    (cid : String) (msgs : List ConversationMessage)
    (hcid : dictGet cid st.conversations = some msgs)
    (hmt : 2000 ≤ max_tokens) :
    ∃ k, k ≤ msgs.length ∧
      (get_context st max_tokens (some cid)).messages =
        (msgs.drop k).map (fun m => (m.role, m.content)) ∧
      (get_context st max_tokens (some cid)).token_count =
        tokenSum (msgs.drop k) ∧
      (get_context st max_tokens (some cid)).token_count ≤ max_tokens - 2000 ∧
      (0 < k → max_tokens - 2000 <
        (get_context st max_tokens (some cid)).token_count +
          estimate_tokens ((msgs.getD (k - 1) default).content)) := by
  obtain ⟨p, q, hsplit, heq, hb, ht⟩ :=
    contextLoop_spec (max_tokens - 2000) msgs.reverse [] 0
  have hmsgs : msgs = q.reverse ++ p.reverse := by
    have h2 := congrArg List.reverse hsplit
    simpa [List.reverse_append] using h2
  have hctx : get_context st max_tokens (some cid) =
      { messages := (p.map (fun m => (m.role, m.content))).reverse,
        token_count := 0 + tokenSum p,
        conversation_id := some cid } := by
    simp [get_context, hcid, heq]
  have hdrop : msgs.drop q.length = p.reverse := by
    rw [hmsgs, ← List.length_reverse q, List.drop_left]
  refine ⟨q.length, ?_, ?_, ?_, ?_, ?_⟩
  · rw [hmsgs]
    simp only [List.length_append, List.length_reverse]
    omega
  · rw [hctx, hdrop, List.map_reverse]
  · rw [hctx, hdrop]
    simp [tokenSum_reverse]
  · rw [hctx]
    dsimp only
    have h0 : (0:Int) ≤ max_tokens - 2000 := by omega
    have := hb h0
    omega
  · intro hk
    cases q with
    | nil => simp at hk
    | cons m q' =>
      have hgt := ht m q' rfl
      have hget : msgs.getD (m :: q').length.pred default = m := by
        rw [hmsgs]
        simp only [List.reverse_cons]
        have hass : (q'.reverse ++ [m]) ++ p.reverse = q'.reverse ++ (m :: p.reverse) := by
          simp
        rw [hass, show (m :: q').length.pred = q'.reverse.length from by simp]
        exact getD_append_cons _ _ _ _
      rw [hctx]
      dsimp only
      simp only [Nat.pred] at hget
      have hlen : (m :: q').length - 1 = q'.length := by simp
      rw [hlen]
      rw [show msgs.getD q'.length default = m from by
        have hg2 := hget
        simpa using hg2]
      omega

/-- Witness for C1: the amended theorem applied to the concrete manager
`mgrEx` (one conversation `"c"` holding the single message `"Hello"`)
with `max_tokens = 2400`, hypotheses discharged by evaluation. -/
theorem C1_get_context_window_witness :
    dictGet "c" mgrEx.conversations = some [msgHello] ∧
    (2000 : Int) ≤ 2400 ∧
    (∃ k, k ≤ [msgHello].length ∧
      (get_context mgrEx 2400 (some "c")).messages =
        ([msgHello].drop k).map (fun m => (m.role, m.content)) ∧
      (get_context mgrEx 2400 (some "c")).token_count =
        tokenSum ([msgHello].drop k) ∧
      (get_context mgrEx 2400 (some "c")).token_count ≤ 2400 - 2000 ∧
      (0 < k → 2400 - 2000 <
        (get_context mgrEx 2400 (some "c")).token_count +
          estimate_tokens (([msgHello].getD (k - 1) default).content))) :=
  ⟨rfl, by norm_num, C1_get_context_window mgrEx 2400 "c" [msgHello] rfl (by norm_num)⟩

/-- C1 counterexample: with `max_tokens = 0` the selection is empty and
its cost `0` already exceeds `max_tokens − 2000 = −2000`, so the claim's
unconditional bound `token_count ≤ max_tokens − 2000` is false. -/
theorem C1_counterexample :
    ¬ ((get_context mgrEx 0 (some "c")).token_count ≤ 0 - 2000) := by
  have h5 : estimate_tokens "Hello" = 1 := by
    rw [estimate_tokens_eq]
    decide
  simp [get_context, contextLoop, dictGet, mgrEx, msgHello, h5]

theorem dictGet_dictSet_self (k : String) (v : α) :
    ∀ d, dictGet k (dictSet k v d) = some v := by
  intro d
  induction d with
  | nil => simp [dictGet, dictSet]
  | cons p rest ih =>
    obtain ⟨k', v'⟩ := p
    by_cases h : k' = k <;> simp [dictGet, dictSet, h, ih]

theorem lastN_length (k : Nat) (l : List α) :
    (lastN k l).length = min k l.length := by
  simp [lastN]
  omega

theorem lastN_all (k : Nat) (l : List α) (h : l.length ≤ k) : lastN k l = l := by
  simp [lastN, Nat.sub_eq_zero_of_le h]

theorem lastN_suffix (k : Nat) (l : List α) : lastN k l <:+ l :=
  List.drop_suffix _ _

theorem pySliceLast_eq_lastN (k : Nat) (hk : k ≠ 0) (l : List α) :
    pySliceLast k l = lastN k l := by
  simp [pySliceLast, lastN, hk]

theorem add_message_lookup (st : ConversationManager) (role content : String)
    (cid fresh : String) (now : Nat) (l : List ConversationMessage)
    (hl : dictGet cid st.conversations = some l) :
    (add_message st role content (some cid) fresh now).history_limit =
      st.history_limit ∧
    dictGet cid (add_message st role content (some cid) fresh now).conversations =
      some (if (l ++ [ConversationMessage.mk role content now]).length > st.history_limit * 2
            then pySliceLast (st.history_limit * 2) (l ++ [ConversationMessage.mk role content now])
            else l ++ [ConversationMessage.mk role content now]) := by
  unfold add_message
  simp [hl, dictGet_dictSet_self]

theorem lastN_append_singleton (k : Nat) (l : List α) (a : α) :
    lastN k l ++ [a] = lastN (k + 1) (l ++ [a]) := by
  simp only [lastN, List.drop_append_eq_append_drop, List.length_append,
    List.length_cons, List.length_nil]
  have h1 : l.length + (0 + 1) - (k + 1) = l.length - k := by omega
  rw [h1]
  have h2 : l.length - k - l.length = 0 := by omega
  rw [h2]
  simp

theorem lastN_lastN (a b : Nat) (l : List α) :
    lastN a (lastN b l) = lastN (min a b) l := by
  simp only [lastN, List.drop_drop, List.length_drop]
  congr 1
  omega

theorem trim_step (n : Nat) (hn : 1 ≤ n) (S : List ConversationMessage)
    (m : ConversationMessage) :
    (if ((lastN (min S.length (2 * n)) S) ++ [m]).length > n * 2
     then pySliceLast (n * 2) ((lastN (min S.length (2 * n)) S) ++ [m])
     else (lastN (min S.length (2 * n)) S) ++ [m]) =
    lastN (min (S.length + 1) (2 * n)) (S ++ [m]) := by
  have hlen : (lastN (min S.length (2 * n)) S).length = min S.length (2 * n) := by
    rw [lastN_length]
    omega
  by_cases hc : S.length + 1 ≤ 2 * n
  · have h1 : min S.length (2 * n) = S.length := by omega
    have h2 : lastN (min S.length (2 * n)) S = S := by
      rw [h1]
      exact lastN_all _ _ le_rfl
    rw [h2]
    have h3 : ¬ ((S ++ [m]).length > n * 2) := by
      simp only [List.length_append, List.length_cons, List.length_nil]
      omega
    rw [if_neg h3]
    have h4 : min (S.length + 1) (2 * n) = S.length + 1 := by omega
    rw [h4]
    have h5 : (S ++ [m]).length ≤ S.length + 1 := by simp
    exact (lastN_all _ _ h5).symm
  · have h2n : 2 * n ≤ S.length := by omega
    have h1 : min S.length (2 * n) = 2 * n := by omega
    have hL : (lastN (min S.length (2 * n)) S).length = 2 * n := by omega
    have h3 : ((lastN (min S.length (2 * n)) S) ++ [m]).length > n * 2 := by
      simp only [List.length_append, List.length_cons, List.length_nil, hL]
      omega
    rw [if_pos h3, pySliceLast_eq_lastN _ (by omega), h1]
    rw [lastN_append_singleton, lastN_lastN]
    have h4 : min (n * 2) (2 * n + 1) = min (S.length + 1) (2 * n) := by omega
    rw [h4]



theorem appendAll_lookup (n : Nat) (hn : 1 ≤ n) (cid fresh : String) :
    ∀ (items : List (String × String × Nat)) (st : ConversationManager)
      (S : List ConversationMessage),
      st.history_limit = n →
      dictGet cid st.conversations = some (lastN (min S.length (2 * n)) S) →
      (appendAll cid fresh items st).history_limit = n ∧
      dictGet cid (appendAll cid fresh items st).conversations =
        some (lastN (min (S.length + items.length) (2 * n)) (S ++ items.map toMsg)) := by
  intro items
  induction items with
  | nil =>
    intro st S hlim hget
    constructor
    · simpa [appendAll] using hlim
    · simpa [appendAll] using hget
  | cons it rest ih =>
    intro st S hlim hget
    have hstep := add_message_lookup st it.1 it.2.1 cid fresh it.2.2 _ hget
    have h1 : (add_message st it.1 it.2.1 (some cid) fresh it.2.2).history_limit = n := by
      rw [hstep.1, hlim]
    have h2 : dictGet cid
        (add_message st it.1 it.2.1 (some cid) fresh it.2.2).conversations =
        some (lastN (min ((S ++ [toMsg it]).length) (2 * n)) (S ++ [toMsg it])) := by
      rw [hstep.2, hlim]
      rw [show (ConversationMessage.mk it.1 it.2.1 it.2.2) = toMsg it from rfl]
      rw [trim_step n hn S (toMsg it)]
      rw [show (S ++ [toMsg it]).length = S.length + 1 from by simp]
    have hrec := ih (add_message st it.1 it.2.1 (some cid) fresh it.2.2)
      (S ++ [toMsg it]) h1 h2
    have hfold : appendAll cid fresh (it :: rest) st =
        appendAll cid fresh rest (add_message st it.1 it.2.1 (some cid) fresh it.2.2) := rfl
    rw [hfold]
    refine ⟨hrec.1, ?_⟩
    rw [hrec.2]
    have e1 : (S ++ [toMsg it]) ++ rest.map toMsg = S ++ (it :: rest).map toMsg := by
      simp
    have e2 : (S ++ [toMsg it]).length + rest.length = S.length + (it :: rest).length := by
      simp
      omega
    rw [e1, e2]



theorem dictGet_map_trim (lim : Nat) (cid : String) :
    ∀ (d : List (String × List ConversationMessage)),
      dictGet cid (d.map (fun p =>
        if p.2.length > lim then (p.1, pySliceLast lim p.2) else p)) =
      (dictGet cid d).map (fun l => if l.length > lim then pySliceLast lim l else l) := by
  have hfun : ∀ (p : String × List ConversationMessage),
      (if p.2.length > lim then (p.1, pySliceLast lim p.2) else p) =
      (p.1, if p.2.length > lim then pySliceLast lim p.2 else p.2) := by
    intro p
    by_cases h : p.2.length > lim <;> simp [h]
  intro d
  simp only [hfun]
  induction d with
  | nil => simp [dictGet]
  | cons p rest ih =>
    obtain ⟨k, v⟩ := p
    by_cases hk : k = cid <;> simp [dictGet, hk, ih]

/-- C2 (amended: positive history limit).  Part 1: after any sequence of
`add_message` calls into conversation `cid` of a fresh manager with
history limit `n ≥ 1`, the stored list is exactly the last
`min(count, 2·n)` appended messages, in append order (a suffix of the
full append sequence, never longer than `2·n`).  Part 2:
`update_history_limit(m)` with `m ≥ 1` immediately re-trims every stored
conversation to a suffix of itself of length at most `2·m`.  (For limit 0
the Python slice `lst[-0:]` keeps everything: see the counterexample.) -/
theorem C2_history_window :
    (∀ n, 1 ≤ n → ∀ (cid fresh : String) (items : List (String × String × Nat)),
      ∃ stored,
        dictGet cid (appendAll cid fresh items (initMgr n cid)).conversations =
          some stored ∧
        stored = lastN (min items.length (2 * n)) (items.map toMsg) ∧
        stored.length ≤ 2 * n ∧
        stored <:+ items.map toMsg) ∧
    (∀ m, 1 ≤ m → ∀ (st : ConversationManager) (cid : String)
        (l : List ConversationMessage),
      dictGet cid st.conversations = some l →
      ∃ l', dictGet cid (update_history_limit st m).conversations = some l' ∧
        l'.length ≤ 2 * m ∧ l' <:+ l) := by
  constructor
  · intro n hn cid fresh items
    have h0 : dictGet cid (initMgr n cid).conversations =
        some (lastN (min ([] : List ConversationMessage).length (2 * n)) []) := by
      simp [initMgr, dictGet, lastN]
    have h := (appendAll_lookup n hn cid fresh items (initMgr n cid) [] rfl h0).2
    refine ⟨lastN (min items.length (2 * n)) (items.map toMsg), ?_, rfl, ?_, ?_⟩
    · simpa using h
    · rw [lastN_length]
      have : (items.map toMsg).length = items.length := by simp
      omega
    · exact lastN_suffix _ _
  · intro m hm st cid l hl
    have h := dictGet_map_trim (m * 2) cid st.conversations
    refine ⟨if l.length > m * 2 then pySliceLast (m * 2) l else l, ?_, ?_, ?_⟩
    · show dictGet cid (update_history_limit st m).conversations = _
      unfold update_history_limit
      dsimp only
      rw [h, hl]
      rfl
    · by_cases hv : l.length > m * 2
      · rw [if_pos hv, pySliceLast_eq_lastN _ (by omega), lastN_length]
        omega
      · rw [if_neg hv]
        omega
    · by_cases hv : l.length > m * 2
      · rw [if_pos hv, pySliceLast_eq_lastN _ (by omega)]
        exact lastN_suffix _ _
      · rw [if_neg hv]

/-- C2 counterexample: with history limit `n = 0` the trim slice
`conversations[cid][-0:]` is the whole list, so after two appends the
conversation holds 2 messages, exceeding `2 × 0 = 0`. -/
theorem C2_counterexample :
    ((dictGet "c" (appendAll "c" "f" [("user", "a", 0), ("user", "b", 1)]
        (initMgr 0 "c")).conversations).getD []).length = 2 ∧
    ¬ (((dictGet "c" (appendAll "c" "f" [("user", "a", 0), ("user", "b", 1)]
        (initMgr 0 "c")).conversations).getD []).length ≤ 2 * 0) := by
  decide

/-- Witness for C2: part 1 applied to limit 1 and three concrete appends
(the stored window is the last two messages), part 2 applied to the
concrete manager `mgrEx` with new limit 1. -/
theorem C2_history_window_witness :
    (1 ≤ 1 ∧
      (∃ stored,
        dictGet "c" (appendAll "c" "f"
          [("user", "a", 0), ("assistant", "b", 1), ("user", "d", 2)]
          (initMgr 1 "c")).conversations = some stored ∧
        stored = lastN (min ([("user", "a", 0), ("assistant", "b", 1),
          ("user", "d", 2)] : List (String × String × Nat)).length (2 * 1))
          (([("user", "a", 0), ("assistant", "b", 1),
            ("user", "d", 2)] : List (String × String × Nat)).map toMsg) ∧
        stored.length ≤ 2 * 1 ∧
        stored <:+ ([("user", "a", 0), ("assistant", "b", 1),
          ("user", "d", 2)] : List (String × String × Nat)).map toMsg)) ∧
    (1 ≤ 1 ∧ dictGet "c" mgrEx.conversations = some [msgHello] ∧
      (∃ l', dictGet "c" (update_history_limit mgrEx 1).conversations = some l' ∧
        l'.length ≤ 2 * 1 ∧ l' <:+ [msgHello])) :=
  ⟨⟨le_rfl, C2_history_window.1 1 le_rfl "c" "f"
      [("user", "a", 0), ("assistant", "b", 1), ("user", "d", 2)]⟩,
   ⟨le_rfl, rfl, C2_history_window.2 1 le_rfl mgrEx "c" [msgHello] rfl⟩⟩

/-- C10: `get_context` with no current conversation, or with an id absent
from the store, returns the empty context (no messages, zero tokens)
rather than failing or creating a conversation (as a pure function of the
state it mutates nothing). -/
theorem C10_get_context_missing (st : ConversationManager) (max_tokens : Int) :
    (st.current_conversation_id = none →
      get_context st max_tokens none =
        { messages := [], token_count := 0, conversation_id := none }) ∧
    (∀ cid, dictGet cid st.conversations = none →
      get_context st max_tokens (some cid) =
        { messages := [], token_count := 0, conversation_id := some cid }) := by
  constructor
  · intro h
    simp [get_context, h]
  · intro cid h
    simp [get_context, h]

/-- Witness for C10: applied to a manager with no current conversation
and to `mgrEx` with the unknown id `"nope"`. -/
theorem C10_get_context_missing_witness :
    mgrEmpty.current_conversation_id = none ∧
    get_context mgrEmpty 1000 none =
      { messages := [], token_count := 0, conversation_id := none } ∧
    dictGet "nope" mgrEx.conversations = none ∧
    get_context mgrEx 1000 (some "nope") =
      { messages := [], token_count := 0, conversation_id := some "nope" } :=
  ⟨rfl, (C10_get_context_missing mgrEmpty 1000).1 rfl, rfl,
   (C10_get_context_missing mgrEx 1000).2 "nope" rfl⟩

end Conversation

namespace Commands

/-- C5: `contains_question` is true iff the text contains `?` or, after
splitting on `.`/`!`, some non-empty trimmed sentence starts with one of
the fixed interrogative/auxiliary words; and the five spec examples
evaluate as stated. -/
theorem C5_contains_question :
    (∀ text, contains_question text = true ↔ containsQuestionSpec text) ∧
    contains_question "What is your name?" = true ∧
    contains_question "How are you" = true ∧
    contains_question "Can you help me" = true ∧
    contains_question "Tell me about yourself." = false ∧
    contains_question "" = false := by
  refine ⟨?_, by decide, by decide, by decide, by decide, by decide⟩
  intro text
  unfold contains_question containsQuestionSpec
  by_cases h : pyContainsChar text '?'
  · simp [h]
  · simp only [h, if_false, Bool.false_eq_true, false_or]
    rw [List.any_eq_true]
    constructor
    · rintro ⟨s, hs, hf⟩
      refine ⟨s, hs, ?_⟩
      by_cases he : pyStrip s = ""
      · simp [he] at hf
      · simp only [he, if_false] at hf
        cases hw : pyWords (pyStrip s) with
        | nil =>
          rw [hw] at hf
          exact absurd hf (by simp)
        | cons w ws =>
          rw [hw] at hf
          refine ⟨he, w, ws, rfl, ?_⟩
          simpa using hf
    · rintro ⟨s, hs, hne, w, ws, hw, hmem⟩
      refine ⟨s, hs, ?_⟩
      simp [hne, hw, hmem]

/-- C4: `route_command` returns `("local", result)` of the first handler
(in registration order) whose `can_handle` accepts the text, and
`("ai", empty ai_query result carrying the original text)` when none
does; concretely, with a time- then date-handler registered,
`"what time is it"` routes local with type `"time"` and `success = true`,
and `"tell me a joke"` routes to AI with type `"ai_query"`. -/
theorem C4_route_command :
    (∀ (handlers : List Handler) (text : String) (h : Handler),
      handlers.find? (fun hh => hh.can_handle text) = some h →
      route_command handlers text = ("local", h.handle text)) ∧
    (∀ (handlers : List Handler) (text : String),
      handlers.find? (fun hh => hh.can_handle text) = none →
      route_command handlers text =
        ("ai", { response := "", command_type := "ai_query",
                 metadata := [("original_text", text)] })) ∧
    (∀ now today,
      route_command [TimeHandler now, DateHandler today] "what time is it" =
        ("local", timeHandler_handle now "what time is it") ∧
      (timeHandler_handle now "what time is it").command_type = "time" ∧
      (timeHandler_handle now "what time is it").success = true) ∧
    (∀ now today,
      route_command [TimeHandler now, DateHandler today] "tell me a joke" =
        ("ai", { response := "", command_type := "ai_query",
                 metadata := [("original_text", "tell me a joke")] })) := by
  refine ⟨?_, ?_, ?_, ?_⟩
  · intro handlers text
    induction handlers with
    | nil => intro h hfind; simp at hfind
    | cons hh rest ih =>
      intro h hfind
      by_cases hc : hh.can_handle text
      · rw [List.find?_cons_of_pos (p := fun (hh : Handler) => hh.can_handle text) _ hc] at hfind
        cases hfind
        simp [route_command, hc]
      · rw [List.find?_cons_of_neg (p := fun (hh : Handler) => hh.can_handle text) _ (by simpa using hc)] at hfind
        simp [route_command, hc]
        exact ih h hfind
  · intro handlers text
    induction handlers with
    | nil => intro hfind; simp [route_command]
    | cons hh rest ih =>
      intro hfind
      by_cases hc : hh.can_handle text
      · rw [List.find?_cons_of_pos (p := fun (hh : Handler) => hh.can_handle text) _ hc] at hfind
        simp at hfind
      · rw [List.find?_cons_of_neg (p := fun (hh : Handler) => hh.can_handle text) _ (by simpa using hc)] at hfind
        simp [route_command, hc]
        exact ih hfind
  · intro now today
    have hc : timeHandler_can_handle "what time is it" = true := by decide
    refine ⟨?_, rfl, rfl⟩
    simp [route_command, TimeHandler, hc]
  · intro now today
    have hc1 : timeHandler_can_handle "tell me a joke" = false := by decide
    have hc2 : dateHandler_can_handle "tell me a joke" = false := by decide
    simp [route_command, TimeHandler, DateHandler, hc1, hc2]

/-- Witness for C4: the route theorem applied to the concrete handler
list `[TimeHandler "noon", DateHandler "someday"]`, with the first-match
hypotheses evaluated. -/
theorem C4_route_command_witness :
    ([TimeHandler "noon", DateHandler "someday"].find?
        (fun hh => hh.can_handle "what time is it") = some (TimeHandler "noon")) ∧
    route_command [TimeHandler "noon", DateHandler "someday"] "what time is it" =
      ("local", (TimeHandler "noon").handle "what time is it") ∧
    ([TimeHandler "noon", DateHandler "someday"].find?
        (fun hh => hh.can_handle "tell me a joke") = none) ∧
    route_command [TimeHandler "noon", DateHandler "someday"] "tell me a joke" =
      ("ai", { response := "", command_type := "ai_query",
               metadata := [("original_text", "tell me a joke")] }) := by
  have hfind : [TimeHandler "noon", DateHandler "someday"].find?
      (fun hh => hh.can_handle "what time is it") = some (TimeHandler "noon") := rfl
  have hnone : [TimeHandler "noon", DateHandler "someday"].find?
      (fun hh => hh.can_handle "tell me a joke") = none := rfl
  exact ⟨hfind, C4_route_command.1 _ _ _ hfind, hnone, C4_route_command.2.1 _ _ hnone⟩

end Commands

theorem char_toLower_toNat_ofNat (n : Nat) (h : n.isValidChar) :
    (Char.ofNat n).toNat = n := by
  simp [Char.ofNat, h, Char.ofNatAux, Char.toNat, UInt32.toNat, BitVec.ofNatLt]

theorem char_toLower_idem (c : Char) : c.toLower.toLower = c.toLower := by
  unfold Char.toLower
  by_cases h : c.toNat ≥ 65 ∧ c.toNat ≤ 90
  · rw [if_pos h]
    have hv : (c.toNat + 32).isValidChar := by
      left
      omega
    have ht : (Char.ofNat (c.toNat + 32)).toNat = c.toNat + 32 :=
      char_toLower_toNat_ofNat _ hv
    rw [if_neg]
    rw [ht]
    omega
  · rw [if_neg h, if_neg h]

theorem pyLower_idem (s : String) : pyLower (pyLower s) = pyLower s := by
  have hcomp : Char.toLower ∘ Char.toLower = Char.toLower :=
    funext char_toLower_idem
  simp [pyLower, List.map_map, hcomp]

namespace Speech

/-- C7: a `speak_with_interruption` call on text shorter than 100
characters speaks the whole text synchronously in one piece, never starts
the background listener, and returns non-interrupted. -/
theorem C7_speak_short (text : String) (event_set queue_nonempty : Nat → Bool)
    (h : text.length < 100) :
    speak_with_interruption text event_set queue_nonempty =
      { interrupted := false, listener_started := false,
        chunks_spoken := [text] } := by
  simp [speak_with_interruption, h]

/-- Witness for C7: the short-text theorem applied to `"Hello"` under
arbitrary concrete oracles. -/
theorem C7_speak_short_witness :
    ("Hello".length < 100) ∧
    speak_with_interruption "Hello" (fun _ => true) (fun _ => true) =
      { interrupted := false, listener_started := false,
        chunks_spoken := ["Hello"] } :=
  ⟨by decide, C7_speak_short "Hello" (fun _ => true) (fun _ => true) (by decide)⟩

theorem mergeRest_middle (rest : List String) : ∀ (s : String) (i : Nat),
    i + 1 < (mergeRest s rest).length →
    4 ≤ (pyWords ((mergeRest s rest).getD i "")).length := by
  induction rest with
  | nil =>
    intro s i hi
    simp [mergeRest] at hi
  | cons t rest ih =>
    intro s i hi
    by_cases hw : (pyWords s).length < 4
    · rw [mergeRest, if_pos hw] at hi ⊢
      exact ih _ i hi
    · rw [mergeRest, if_neg hw] at hi ⊢
      cases i with
      | zero =>
        simpa using Nat.le_of_not_lt hw
      | succ j =>
        simp only [List.getD_cons_succ]
        apply ih
        simpa using hi

/-- C8 (amended): the chunker splits on `.`/`!`/`?`, discards empty
chunks, and re-merges short chunks into their successor only from the
second chunk on — so every chunk other than the first and the last has at
least 4 words.  (The first chunk is exempt because the merge loop
requires `len(cleaned_sentences) > 0`: see the counterexample.) -/
theorem C8_chunk_min_words (text : String) (i : Nat) (h0 : 0 < i)
    (hi : i + 1 < (split_into_sentences text).length) :
    4 ≤ (pyWords ((split_into_sentences text).getD i "")).length := by
  rcases hsp : sentence_pieces text with _ | ⟨s, rest⟩
  · have hdef : split_into_sentences text = [text] := by
      simp [split_into_sentences, hsp]
    rw [hdef] at hi
    simp at hi
  · rcases rest with _ | ⟨t, rest'⟩
    · have hdef : split_into_sentences text = [s] := by
        simp [split_into_sentences, hsp]
      rw [hdef] at hi
      simp at hi
    · have hdef : split_into_sentences text = s :: mergeRest t rest' := by
        simp [split_into_sentences, hsp]
      rw [hdef] at hi ⊢
      cases i with
      | zero => omega
      | succ j =>
        simp only [List.getD_cons_succ]
        apply mergeRest_middle
        simpa using hi

/-- C8 counterexample: a long text whose first sentence is the single
word `"Hi"` produces a first, non-final chunk of fewer than 4 words — the
merge loop never merges the first chunk. -/
theorem C8_counterexample :
    100 ≤ ("Hi! Alpha beta gamma delta epsilon zeta eta theta iota kappa lambda mu nu xi omicron pi rho sigma tau." : String).length ∧
    split_into_sentences "Hi! Alpha beta gamma delta epsilon zeta eta theta iota kappa lambda mu nu xi omicron pi rho sigma tau." =
      ["Hi", "Alpha beta gamma delta epsilon zeta eta theta iota kappa lambda mu nu xi omicron pi rho sigma tau"] ∧
    0 + 1 < (split_into_sentences "Hi! Alpha beta gamma delta epsilon zeta eta theta iota kappa lambda mu nu xi omicron pi rho sigma tau.").length ∧
    ¬ (4 ≤ (pyWords ((split_into_sentences "Hi! Alpha beta gamma delta epsilon zeta eta theta iota kappa lambda mu nu xi omicron pi rho sigma tau.").getD 0 "")).length) := by
  refine ⟨by decide, by decide, by decide, by decide⟩

/-- Witness for C8: the amended theorem applied to a three-sentence text,
checking the middle chunk. -/
theorem C8_chunk_min_words_witness :
    (0 < 1) ∧
    (1 + 1 < (split_into_sentences "One two three four five. Six seven eight nine ten. Eleven twelve thirteen fourteen fifteen.").length) ∧
    4 ≤ (pyWords ((split_into_sentences "One two three four five. Six seven eight nine ten. Eleven twelve thirteen fourteen fifteen.").getD 1 "")).length :=
  ⟨by decide, by decide,
   C8_chunk_min_words "One two three four five. Six seven eight nine ten. Eleven twelve thirteen fourteen fifteen."
     1 (by decide) (by decide)⟩

end Speech

namespace Resources

/-- C9: `switch_profile` lowercases the name and resolves it through the
alias table (`"gaming"` activates the `"minimal"` profile, `"max"` the
`"performance"` profile, case-insensitively); any name resolving to no
known profile reports failure and leaves the state unchanged
(`"unknown-xyz"` concretely included). -/
theorem C9_switch_profile :
    (∀ st, (switch_profile st "gaming").1 = true ∧
      (switch_profile st "gaming").2.current_profile_name = some "minimal") ∧
    (∀ st, (switch_profile st "max").1 = true ∧
      (switch_profile st "max").2.current_profile_name = some "performance") ∧
    (∀ st name, switch_profile st name = switch_profile st (pyLower name)) ∧
    (∀ st name, (switch_profile st name).1 = false →
      (switch_profile st name).2 = st) ∧
    (∀ st, switch_profile st "unknown-xyz" = (false, st)) ∧
    (∀ st name,
      dictGet (match dictGet (pyLower name) ALIASES with
        | some target => target
        | none => pyLower name) PROFILES = none →
      switch_profile st name = (false, st)) := by
  refine ⟨?_, ?_, ?_, ?_, ?_, ?_⟩
  · intro st
    constructor <;> rfl
  · intro st
    constructor <;> rfl
  · intro st name
    simp only [switch_profile, pyLower_idem]
  · intro st name
    unfold switch_profile
    by_cases h : (dictGet (match dictGet (pyLower name) ALIASES with
        | some target => target
        | none => pyLower name) PROFILES).isSome
    · rw [if_pos h]
      intro hfalse
      simp at hfalse
    · rw [if_neg h]
      intro _
      rfl
  · intro st
    rfl
  · intro st name h
    simp [switch_profile, h]

/-- Witness for C9: the switch theorem applied to the concrete manager
`rmEx` and the names `"GAMING"`, `"unknown-xyz"` and `"gaming"`. -/
theorem C9_switch_profile_witness :
    switch_profile rmEx "GAMING" = switch_profile rmEx (pyLower "GAMING") ∧
    (switch_profile rmEx "unknown-xyz").1 = false ∧
    (switch_profile rmEx "unknown-xyz").2 = rmEx ∧
    (switch_profile rmEx "gaming").1 = true ∧
    switch_profile rmEx "unknown-xyz" = (false, rmEx) :=
  ⟨C9_switch_profile.2.2.1 rmEx "GAMING", by decide,
   C9_switch_profile.2.2.2.1 rmEx "unknown-xyz" (by decide), (C9_switch_profile.1 rmEx).1,
   C9_switch_profile.2.2.2.2.2 rmEx "unknown-xyz" (by decide)⟩

end Resources

end VoiceAssist
